import Mathlib

set_option maxRecDepth 8000

/-!
Verification of the AI todo-manager core against its natural-language
specification.  The definitions below are shallow embeddings of the
TypeScript functions in `src/app/api/ai/parse-todo/route.ts` (input
normalization, validation, title/time/date post-processing, weekday
anchors) and of the analyze-tasks route (period window resolution,
zero-task short circuits, fallback analysis synthesis).  Strings are
modelled as `List Char`; JavaScript number/Date values as `Int`/`Nat`
with calendar dates as explicit structures.
-/

namespace AiTodo

/-- The JavaScript whitespace class: the characters matched by the regex
class `\s` and stripped by `String.prototype.trim` (ECMA-262 WhiteSpace
plus LineTerminator code points). -/
def isWs (c : Char) : Bool :=
  c == ' ' || c == '\t' || c == '\n' || c == '\r' ||
    c.toNat == 0x0B || c.toNat == 0x0C || c.toNat == 0xA0 ||
    c.toNat == 0x1680 ||
    (Nat.ble 0x2000 c.toNat && Nat.ble c.toNat 0x200A) ||
    c.toNat == 0x2028 || c.toNat == 0x2029 || c.toNat == 0x202F ||
    c.toNat == 0x205F || c.toNat == 0x3000 || c.toNat == 0xFEFF

/-- Character class of the regex `\n` (the line-feed character only). -/
def isNl (c : Char) : Bool := c == '\n'

/-- Left half of `String.prototype.trim`: drop leading `\s` characters. -/
def trimLeft (l : List Char) : List Char := l.dropWhile isWs

/-- Right half of `String.prototype.trim`: drop trailing `\s` characters. -/
def trimRight (l : List Char) : List Char := (l.reverse.dropWhile isWs).reverse

/-- `String.prototype.trim`: drop whitespace from both ends. -/
def jsTrim (l : List Char) : List Char := trimRight (trimLeft l)

/-- `String.prototype.replace(/p+/g, r)`: every maximal run of characters
satisfying `p` is replaced by the single character `r`.  Written with a
two-character lookahead so the recursion is structural (each maximal run
contributes `r` once, at its last character). -/
def collapseRuns (p : Char → Bool) (r : Char) : List Char → List Char
  | [] => []
  | [c] => if p c then [r] else [c]
  | c1 :: c2 :: rest =>
      if p c1 then
        if p c2 then collapseRuns p r (c2 :: rest)
        else r :: collapseRuns p r (c2 :: rest)
      else c1 :: collapseRuns p r (c2 :: rest)

/-- `preprocessInput` from `route.ts`: trim, collapse whitespace runs to a
single space (`replace(/\s+/g, ' ')`), collapse line-feed runs to a single
line feed (`replace(/\n+/g, '\n')`). -/
def preprocessInput (l : List Char) : List Char :=
  collapseRuns isNl '\n' (collapseRuns isWs ' ' (jsTrim l))

/-- The distinct failure reasons returned by `validateInput` (each is a
distinct Korean error message in the source). -/
inductive ValidationError
  | emptyInput
  | tooShort
  | tooLong
  | noMeaningfulText
deriving DecidableEq, Repr

/-- Outcome of `validateInput`: the `{ valid, error? }` record of the source. -/
inductive ValidationResult
  | ok
  | err (e : ValidationError)
deriving DecidableEq, Repr

def INPUT_MIN_LENGTH : Nat := 2
def INPUT_MAX_LENGTH : Nat := 500

/-- The "meaningful text" character test of `validateInput`: Hangul
compatibility jamo `U+3131`–`U+318E`, Hangul syllables `U+AC00`–`U+D7A3`,
Latin letters, ASCII digits, CJK ideographs `U+4E00`–`U+9FFF`, and the
Japanese kana ranges `U+3040`–`U+309F`, `U+30A0`–`U+30FF`. -/
def isMeaningfulChar (c : Char) : Bool :=
  (Nat.ble 0x3131 c.toNat && Nat.ble c.toNat 0x318E) ||
    (Nat.ble 0xAC00 c.toNat && Nat.ble c.toNat 0xD7A3) ||
    (Nat.ble 0x61 c.toNat && Nat.ble c.toNat 0x7A) ||
    (Nat.ble 0x41 c.toNat && Nat.ble c.toNat 0x5A) ||
    (Nat.ble 0x30 c.toNat && Nat.ble c.toNat 0x39) ||
    (Nat.ble 0x4E00 c.toNat && Nat.ble c.toNat 0x9FFF) ||
    (Nat.ble 0x3040 c.toNat && Nat.ble c.toNat 0x309F) ||
    (Nat.ble 0x30A0 c.toNat && Nat.ble c.toNat 0x30FF)

/-- `validateInput` from `route.ts`: empty check, minimum length 2,
maximum length 500, then the meaningful-character check. -/
def validateInput (input : List Char) : ValidationResult :=
  if input.length = 0 then .err .emptyInput
  else if input.length < INPUT_MIN_LENGTH then .err .tooShort
  else if input.length > INPUT_MAX_LENGTH then .err .tooLong
  else if input.any isMeaningfulChar then .ok
  else .err .noMeaningfulText

/-- The validation step of the normalize-task `POST` handler: the raw
request string is first preprocessed, and `validateInput` runs on the
preprocessed form. -/
def checkNormalizeInput (raw : List Char) : ValidationResult :=
  validateInput (preprocessInput raw)

def TITLE_MIN_LENGTH : Nat := 2
def TITLE_MAX_LENGTH : Nat := 100

/-- The fixed placeholder title (`'새 할 일'`). -/
def titlePlaceholder : List Char := "새 할 일".toList

/-- `postprocessTitle` from `route.ts`: trim; if the trimmed length is
below 2 substitute the placeholder; if the (resulting) length exceeds 100
truncate to 97 characters and append `'...'`. -/
def postprocessTitle (title : List Char) : List Char :=
  let processed := jsTrim title
  let processed :=
    if processed.length < TITLE_MIN_LENGTH then titlePlaceholder else processed
  if processed.length > TITLE_MAX_LENGTH then
    processed.take (TITLE_MAX_LENGTH - 3) ++ "...".toList
  else processed

/-- The time regex of the `POST` handler,
`/^([01]?[0-9]|2[0-3]):[0-5][0-9]$/`, embedded over code points: either a
single digit hour, or a two-digit hour `0x`/`1x`/`20`–`23`, then `':'`,
then a minute `[0-5][0-9]`. -/
def timeRegexTest (t : List Char) : Bool :=
  match t with
  | [h, colon, m1, m2] =>
      (Nat.ble 0x30 h.toNat && Nat.ble h.toNat 0x39) &&
        colon.toNat == 0x3A &&
        (Nat.ble 0x30 m1.toNat && Nat.ble m1.toNat 0x35) &&
        (Nat.ble 0x30 m2.toNat && Nat.ble m2.toNat 0x39)
  | [h1, h2, colon, m1, m2] =>
      ((h1.toNat == 0x30 || h1.toNat == 0x31) &&
          (Nat.ble 0x30 h2.toNat && Nat.ble h2.toNat 0x39) ||
        h1.toNat == 0x32 && (Nat.ble 0x30 h2.toNat && Nat.ble h2.toNat 0x33)) &&
        colon.toNat == 0x3A &&
        (Nat.ble 0x30 m1.toNat && Nat.ble m1.toNat 0x35) &&
        (Nat.ble 0x30 m2.toNat && Nat.ble m2.toNat 0x39)
  | _ => false

/-- The due-time correction step of the `POST` handler: a string failing
the time regex is replaced by `"09:00"`; a passing one is kept. -/
def postprocessDueTime (t : List Char) : List Char :=
  if timeRegexTest t then t else "09:00".toList

/-- A calendar date (the year/month/day of a JavaScript `Date` built via
`new Date(year, month, date)`, so time-of-day is discarded). -/
structure CalDate where
  year : Int
  month : Int
  day : Int
deriving DecidableEq, Repr

/-- Comparison of two date-only `Date` values: timestamps of local
midnights compare lexicographically on (year, month, day). -/
def dateLt (a b : CalDate) : Bool :=
  if a.year ≠ b.year then decide (a.year < b.year)
  else if a.month ≠ b.month then decide (a.month < b.month)
  else decide (a.day < b.day)

/-- The past-date correction step of the `POST` handler: a due date
strictly before today (date-only comparison) is overwritten with today. -/
def postprocessDueDate (due today : CalDate) : CalDate :=
  if dateLt due today then today else due

/-- The date/time correction segment of the `POST` handler (past-date
overwrite, then the independent due-time regex fallback). -/
def postprocessDateTime (due : CalDate) (t : List Char) (today : CalDate) :
    CalDate × List Char :=
  (postprocessDueDate due today, postprocessDueTime t)

/-- `Date.prototype.getDay` on a date given as a day count from the Unix
epoch (0 = Sunday; epoch day 0, 1970-01-01, was a Thursday). -/
def jsDow (day : Int) : Int := (day + 4) % 7

/-- `getCurrentWeekDay` from `getDateHelpers` in `route.ts`: the this-week
anchor for a target weekday number, `today + (diff ≥ 0 ? diff : 7 + diff)`
where `diff = targetDay - today.getDay()`. -/
def getCurrentWeekDay (todayDay : Int) (targetDay : Int) : Int :=
  let diff := targetDay - jsDow todayDay
  todayDay + (if diff ≥ 0 then diff else 7 + diff)

/-- An instant, as a day count from the epoch plus milliseconds within the
day (a local-calendar reading of a JavaScript `Date`). -/
structure DateTimeM where
  day : Int
  ms : Int
deriving DecidableEq, Repr

/-- `Date` comparison `a <= b` for the instant model. -/
def dtLe (a b : DateTimeM) : Bool :=
  decide (a.day < b.day) || (a.day == b.day && decide (a.ms ≤ b.ms))

/-- The analysis period selector of the analyze-tasks route. -/
inductive AnalysisPeriod
  | today
  | week
deriving DecidableEq, Repr

/-- `getDateRange` from the analyze-tasks route: `today` spans the current
day; `week` starts `-6` days back when the reference day is Sunday and
`1 - dayOfWeek` days otherwise, ends six days later, with the hours set to
00:00:00.000 and 23:59:59.999. -/
def getDateRange (p : AnalysisPeriod) (todayDay : Int) : DateTimeM × DateTimeM :=
  match p with
  | .today => (⟨todayDay, 0⟩, ⟨todayDay, 86399999⟩)
  | .week =>
      let dow := jsDow todayDay
      let diff : Int := if dow = 0 then -6 else 1 - dow
      let weekStart := todayDay + diff
      (⟨weekStart, 0⟩, ⟨weekStart + 6, 86399999⟩)

/-- The priority enumeration (`'높음'`, `'중간'`, `'낮음'`). -/
inductive Priority
  | high
  | medium
  | low
deriving DecidableEq, Repr

/-- The fields of a stored todo record used by the analyze-tasks route. -/
structure TodoRec where
  title : List Char
  priority : Priority
  completed : Bool
  dueAt : Option DateTimeM
deriving DecidableEq, Repr

/-- The analysis payload `{summary, urgentTasks, insights, recommendations}`. -/
structure AnalysisResult where
  summary : List Char
  urgentTasks : List (List Char)
  insights : List (List Char)
  recommendations : List (List Char)
deriving DecidableEq, Repr

/-- The period filter of the analyze-tasks route: a record with no due
date is excluded; otherwise keep `start <= due && due <= end`. -/
def dueInRange (range : DateTimeM × DateTimeM) (t : TodoRec) : Bool :=
  match t.dueAt with
  | none => false
  | some d => dtLe range.1 d && dtLe d range.2

/-- The canned result returned when the owner has no tasks at all. -/
def noTodosResult : AnalysisResult :=
  { summary := "아직 등록된 할 일이 없습니다.".toList
    urgentTasks := []
    insights := ["새로운 할 일을 추가해보세요!".toList]
    recommendations := ["할 일을 추가하고 효율적으로 관리해보세요.".toList] }

/-- The period label (`'오늘'` / `'이번 주'`). -/
def periodTextOf (p : AnalysisPeriod) : List Char :=
  match p with
  | .today => "오늘".toList
  | .week => "이번 주".toList

/-- The canned result returned when no task falls in the resolved period. -/
def noPeriodTodosResult (p : AnalysisPeriod) : AnalysisResult :=
  { summary := periodTextOf p ++ "에 예정된 할 일이 없습니다.".toList
    urgentTasks := []
    insights := [periodTextOf p ++ "의 일정이 비어있습니다.".toList]
    recommendations := ["새로운 할 일을 계획해보세요.".toList] }

/-- Outcome of the analyze-tasks route up to the point where the
generation service would be invoked: either a canned response was
returned without any model call, or the filtered task list reaches the
prompt-building and model-call stage. -/
inductive AnalyzeOutcome
  | canned (r : AnalysisResult)
  | modelCall (filtered : List TodoRec)
deriving DecidableEq, Repr

/-- The zero-task short circuits of the analyze-tasks `POST` handler:
empty collection, then period filtering, then (only if tasks remain) the
model-call stage. -/
def analyzeTodosStep (p : AnalysisPeriod) (todayDay : Int)
    (todos : List TodoRec) : AnalyzeOutcome :=
  if todos.isEmpty then .canned noTodosResult
  else
    let filtered := todos.filter (dueInRange (getDateRange p todayDay))
    if filtered.isEmpty then .canned (noPeriodTodosResult p)
    else .modelCall filtered

/-- Decimal digits of a Nat, as in JavaScript number-to-string coercion. -/
def natChars (n : Nat) : List Char := (Nat.repr n).toList

/-- `((completed / total) * 100).toFixed(1)` guarded by `total > 0` as in
the source; the floating-point computation is modelled exactly over
rationals, rounding to the nearest tenth (half away from zero, which for
these nonnegative values is half up). -/
def completionRateChars (completed total : Nat) : List Char :=
  if total = 0 then ['0']
  else
    let tenths := (completed * 2000 + total) / (2 * total)
    natChars (tenths / 10) ++ ['.'] ++ natChars (tenths % 10)

/-- The mechanically populated urgent-task list of the fallback analysis:
titles of incomplete high-priority records, capped at five (`slice(0, 5)`). -/
def fallbackUrgent (todos : List TodoRec) : List (List Char) :=
  ((todos.filter fun t => !t.completed && decide (t.priority = Priority.high)).take 5).map
    fun t => t.title

/-- The fallback `AnalysisResult` synthesized by the analyze-tasks route
when the model's text response fails to parse as JSON: a templated
summary with the literal totals and completion rate, the capped
urgent-task list, two templated insights and two templated
recommendations. -/
def fallbackAnalysis (periodText : List Char) (todos : List TodoRec) :
    AnalysisResult :=
  let totalCount := todos.length
  let completedCount := (todos.filter fun t => t.completed).length
  let rate := completionRateChars completedCount totalCount
  { summary := periodText ++ " 총 ".toList ++ natChars totalCount ++
      "개의 할 일 중 ".toList ++ natChars completedCount ++
      "개 완료 (".toList ++ rate ++ "%)".toList
    urgentTasks := fallbackUrgent todos
    insights := ["완료율은 ".toList ++ rate ++ "%입니다.".toList,
      natChars (totalCount - completedCount) ++ "개의 할 일이 아직 남아있습니다.".toList]
    recommendations := ["우선순위가 높은 작업부터 처리해보세요.".toList,
      "작은 할 일부터 하나씩 완료하며 성취감을 느껴보세요.".toList] }

/-- Spec-side predicate, following the specification's words: strict
two-digit `HH:MM` with hour in `[00,23]` and minute in `[00,59]`.  Used to
compare the spec's notion of a valid time with the code's regex. -/
def strictHHMM (t : List Char) : Bool :=
  match t with
  | [h1, h2, colon, m1, m2] =>
      (Nat.ble 0x30 h1.toNat && Nat.ble h1.toNat 0x39) &&
        (Nat.ble 0x30 h2.toNat && Nat.ble h2.toNat 0x39) &&
        colon.toNat == 0x3A &&
        (Nat.ble 0x30 m1.toNat && Nat.ble m1.toNat 0x39) &&
        (Nat.ble 0x30 m2.toNat && Nat.ble m2.toNat 0x39) &&
        Nat.ble ((h1.toNat - 0x30) * 10 + (h2.toNat - 0x30)) 23 &&
        Nat.ble ((m1.toNat - 0x30) * 10 + (m2.toNat - 0x30)) 59
  | _ => false

/-- Spec-side predicate for the amended C2 claim: the additional
single-digit-hour form `H:MM` (hour `0`–`9`, minute in `[00,59]`) that the
code's regex also accepts. -/
def singleDigitHourHMM (t : List Char) : Bool :=
  match t with
  | [h, colon, m1, m2] =>
      (Nat.ble 0x30 h.toNat && Nat.ble h.toNat 0x39) &&
        colon.toNat == 0x3A &&
        (Nat.ble 0x30 m1.toNat && Nat.ble m1.toNat 0x39) &&
        (Nat.ble 0x30 m2.toNat && Nat.ble m2.toNat 0x39) &&
        Nat.ble ((m1.toNat - 0x30) * 10 + (m2.toNat - 0x30)) 59
  | _ => false

/-- Six incomplete high-priority records: a concrete owner snapshot on
which the fallback urgent-task list hits the `slice(0, 5)` cap. -/
def sixHighTodos : List TodoRec :=
  [⟨['1'], .high, false, none⟩, ⟨['2'], .high, false, none⟩,
    ⟨['3'], .high, false, none⟩, ⟨['4'], .high, false, none⟩,
    ⟨['5'], .high, false, none⟩, ⟨['6'], .high, false, none⟩]

/-- The route's response wrapper for the post-statistics segment: both the
parsed-model branch and the fallback branch answer with `success: true`. -/
inductive AnalysisResponse
  | success (r : AnalysisResult)
deriving DecidableEq, Repr

/-- The response-resolution segment of the analyze-tasks route, after the
non-empty-period check: a JSON parse success is passed through, a parse
failure is replaced by the deterministic fallback, and both are wrapped
as a success response. -/
def resolveAnalysisResponse (parsed : Option AnalysisResult)
    (periodText : List Char) (todos : List TodoRec) : AnalysisResponse :=
  match parsed with
  | some r => .success r
  | none => .success (fallbackAnalysis periodText todos)

/-! Theorems. -/

theorem bool_eq_of_iff {a b : Bool} (h : a = true ↔ b = true) : a = b := by
  cases a <;> cases b <;> simp_all

/-- C1: in the normalize-task pipeline, an extracted due date strictly
earlier (date-only comparison) than today is overwritten with exactly
today, a due date equal to or later than today is left unchanged, and a
due time that already passes the validity test is left unchanged. -/
theorem c1_past_date_corrected_to_today (due today : CalDate) (t : List Char) :
    (dateLt due today = true → (postprocessDateTime due t today).1 = today)
    ∧ (dateLt due today = false → (postprocessDateTime due t today).1 = due)
    ∧ (timeRegexTest t = true → (postprocessDateTime due t today).2 = t) := by
  refine ⟨fun h => ?_, fun h => ?_, fun h => ?_⟩ <;>
    simp [postprocessDateTime, postprocessDueDate, postprocessDueTime, h]

/-- Witness for C1: a due date of 2024-06-09 against a today of
2024-06-10 is rewritten to 2024-06-10, a due date of 2024-06-11 is kept,
and the valid time `"15:00"` is kept. -/
theorem c1_past_date_corrected_to_today_witness :
    (postprocessDateTime ⟨2024, 5, 9⟩ ("15:00".toList) ⟨2024, 5, 10⟩).1 = ⟨2024, 5, 10⟩
    ∧ (postprocessDateTime ⟨2024, 5, 11⟩ ("15:00".toList) ⟨2024, 5, 10⟩).1 = ⟨2024, 5, 11⟩
    ∧ (postprocessDateTime ⟨2024, 5, 9⟩ ("15:00".toList) ⟨2024, 5, 10⟩).2 = "15:00".toList :=
  ⟨(c1_past_date_corrected_to_today ⟨2024, 5, 9⟩ ⟨2024, 5, 10⟩ ("15:00".toList)).1 (by decide),
    (c1_past_date_corrected_to_today ⟨2024, 5, 11⟩ ⟨2024, 5, 10⟩ ("15:00".toList)).2.1 (by decide),
    (c1_past_date_corrected_to_today ⟨2024, 5, 9⟩ ⟨2024, 5, 10⟩ ("15:00".toList)).2.2 (by decide)⟩

/-- Counterexample to C2 as stated: the string `"9:00"` does not match
strict `HH:MM`, yet the post-processor keeps it instead of replacing it
with `"09:00"`. -/
theorem c2_single_digit_hour_kept :
    strictHHMM ("9:00".toList) = false
    ∧ postprocessDueTime ("9:00".toList) = "9:00".toList
    ∧ "9:00".toList ≠ "09:00".toList := by decide

theorem timeRegexTest_eq_spec (t : List Char) :
    timeRegexTest t = (strictHHMM t || singleDigitHourHMM t) := by
  match t with
  | [] => rfl
  | [a] => rfl
  | [a, b] => rfl
  | [a, b, c] => rfl
  | [h, colon, m1, m2] =>
      rw [show strictHHMM [h, colon, m1, m2] = false from rfl]
      apply bool_eq_of_iff
      simp only [timeRegexTest, singleDigitHourHMM, Bool.false_or,
        Bool.and_eq_true, beq_iff_eq, Nat.ble_eq]
      omega
  | [h1, h2, colon, m1, m2] =>
      rw [show singleDigitHourHMM [h1, h2, colon, m1, m2] = false from rfl]
      apply bool_eq_of_iff
      simp only [timeRegexTest, strictHHMM, Bool.or_false, Bool.or_eq_true,
        Bool.and_eq_true, beq_iff_eq, Nat.ble_eq]
      omega
  | a :: b :: c :: d :: e :: f :: rest => rfl

/-- C2 (amended): the post-processor keeps a due time exactly when it
matches strict `HH:MM` (hour `00`–`23`, minute `00`–`59`) or the
single-digit-hour form `H:MM` (hour `0`–`9`) that the code's regex
`[01]?[0-9]` also accepts; any other string — including `"25:00"` and the
empty string, but not `"9:00"` — is replaced with `"09:00"`. -/
theorem c2_time_format_fallback (t : List Char) :
    postprocessDueTime t
      = (if strictHHMM t || singleDigitHourHMM t then t else "09:00".toList) := by
  rw [postprocessDueTime, timeRegexTest_eq_spec]

/-- C5: the title post-processor trims; a trimmed title shorter than two
characters becomes the fixed placeholder, a trimmed title longer than 100
characters becomes its first 97 characters plus `"..."` (exactly 100
characters), and otherwise the trimmed title is returned unchanged. -/
theorem c5_title_clamp (title : List Char) :
    ((jsTrim title).length < 2 → postprocessTitle title = titlePlaceholder)
    ∧ ((jsTrim title).length > 100 →
        postprocessTitle title = (jsTrim title).take 97 ++ "...".toList
        ∧ (postprocessTitle title).length = 100)
    ∧ (2 ≤ (jsTrim title).length → (jsTrim title).length ≤ 100 →
        postprocessTitle title = jsTrim title) := by
  refine ⟨fun h => ?_, fun h => ?_, fun h1 h2 => ?_⟩
  · simp only [postprocessTitle, TITLE_MIN_LENGTH, TITLE_MAX_LENGTH]
    rw [if_pos h, if_neg (show ¬ titlePlaceholder.length > 100 by decide)]
  · have heq : postprocessTitle title = (jsTrim title).take 97 ++ "...".toList := by
      simp only [postprocessTitle, TITLE_MIN_LENGTH, TITLE_MAX_LENGTH]
      rw [if_neg (show ¬ (jsTrim title).length < 2 by omega),
        if_pos (show (jsTrim title).length > 100 by omega)]
    refine ⟨heq, ?_⟩
    rw [heq]
    simp only [List.length_append, List.length_take]
    have h3 : "...".toList.length = 3 := by decide
    omega
  · simp only [postprocessTitle, TITLE_MIN_LENGTH, TITLE_MAX_LENGTH]
    rw [if_neg (show ¬ (jsTrim title).length < 2 by omega),
      if_neg (show ¬ (jsTrim title).length > 100 by omega)]

/-- Witness for C5: the one-character title `"a"` becomes the
placeholder, and a title of 150 `'a'` characters becomes its first 97
characters plus `"..."`, of length exactly 100. -/
theorem c5_title_clamp_witness :
    postprocessTitle ['a'] = titlePlaceholder
    ∧ postprocessTitle (List.replicate 150 'a')
        = (jsTrim (List.replicate 150 'a')).take 97 ++ "...".toList
    ∧ (postprocessTitle (List.replicate 150 'a')).length = 100 :=
  ⟨(c5_title_clamp ['a']).1 (by decide),
    ((c5_title_clamp (List.replicate 150 'a')).2.1 (by decide)).1,
    ((c5_title_clamp (List.replicate 150 'a')).2.1 (by decide)).2⟩

/-- C6: the ThisWeek window resolved by `getDateRange` starts at 00:00:00
of a Monday, ends at 23:59:59.999 six days later (a Sunday), contains the
reference day, and its start is `today - 6` when the reference day is a
Sunday and `today + (1 - weekday)` otherwise. -/
theorem c6_this_week_window (todayDay : Int) :
    (getDateRange AnalysisPeriod.week todayDay).1.ms = 0
    ∧ (getDateRange AnalysisPeriod.week todayDay).2.ms = 86399999
    ∧ jsDow (getDateRange AnalysisPeriod.week todayDay).1.day = 1
    ∧ (getDateRange AnalysisPeriod.week todayDay).2.day
        = (getDateRange AnalysisPeriod.week todayDay).1.day + 6
    ∧ (getDateRange AnalysisPeriod.week todayDay).1.day ≤ todayDay
    ∧ todayDay ≤ (getDateRange AnalysisPeriod.week todayDay).2.day
    ∧ (getDateRange AnalysisPeriod.week todayDay).1.day
        = todayDay + (if jsDow todayDay = 0 then -6 else 1 - jsDow todayDay)
    ∧ jsDow (getDateRange AnalysisPeriod.week todayDay).2.day = 0 := by
  have h : getDateRange AnalysisPeriod.week todayDay
      = (⟨todayDay + (if (todayDay + 4) % 7 = 0 then -6 else 1 - (todayDay + 4) % 7), 0⟩,
         ⟨todayDay + (if (todayDay + 4) % 7 = 0 then -6 else 1 - (todayDay + 4) % 7) + 6,
           86399999⟩) := by
    simp only [getDateRange, jsDow]
  rw [h]
  dsimp only
  simp only [jsDow]
  split_ifs <;> refine ⟨?_, ?_, ?_, ?_, ?_, ?_, ?_, ?_⟩ <;> first | trivial | omega

/-- C9: the this-weekday anchor lies in the seven-day window starting at
today: for any weekday number `0`–`6` the computed offset is between 0
and 6 days, so the anchor is never before today. -/
theorem c9_this_weekday_in_window (todayDay targetDay : Int)
    (h0 : 0 ≤ targetDay) (h6 : targetDay ≤ 6) :
    todayDay ≤ getCurrentWeekDay todayDay targetDay
    ∧ getCurrentWeekDay todayDay targetDay ≤ todayDay + 6 := by
  simp only [getCurrentWeekDay, jsDow]
  split_ifs <;> constructor <;> omega

/-- Witness for C9: from reference day 0 (a Thursday) the Wednesday
anchor (weekday 3) falls within the following seven days. -/
theorem c9_this_weekday_in_window_witness :
    (0 : Int) ≤ getCurrentWeekDay 0 3 ∧ getCurrentWeekDay 0 3 ≤ 0 + 6 :=
  c9_this_weekday_in_window 0 3 (by decide) (by decide)

/-- Counterexample to C3 as stated: with six incomplete high-priority
records, the fallback's urgentTasks is not the full title list of the
incomplete high-priority records (the code caps it at five). -/
theorem c3_urgent_cap_counterexample :
    resolveAnalysisResponse none [] sixHighTodos
      = .success (fallbackAnalysis [] sixHighTodos)
    ∧ (fallbackAnalysis [] sixHighTodos).urgentTasks
        ≠ (sixHighTodos.filter fun t =>
            !t.completed && decide (t.priority = Priority.high)).map (fun t => t.title) := by
  refine ⟨rfl, ?_⟩
  decide

/-- C3 (amended): once the non-empty-period check has passed, a JSON
parse failure is resolved as a success response whose result is the
deterministic fallback: its summary contains the literal total count,
completed count and completion rate, its urgentTasks are the titles of
the first at most five incomplete high-priority records, and its insights
and recommendations are non-empty. -/
theorem c3_parse_failure_fallback (pt : List Char) (todos : List TodoRec) :
    ∃ r, resolveAnalysisResponse none pt todos = .success r
      ∧ (∃ s1 s2, r.summary = s1 ++ natChars todos.length ++ s2)
      ∧ (∃ s1 s2, r.summary
            = s1 ++ natChars (todos.filter fun t => t.completed).length ++ s2)
      ∧ (∃ s1 s2, r.summary
            = s1 ++ completionRateChars (todos.filter fun t => t.completed).length
                todos.length ++ s2)
      ∧ r.urgentTasks
          = ((todos.filter fun t =>
                !t.completed && decide (t.priority = Priority.high)).take 5).map
              (fun t => t.title)
      ∧ r.insights ≠ [] ∧ r.recommendations ≠ [] := by
  refine ⟨fallbackAnalysis pt todos, rfl, ?_, ?_, ?_, rfl, ?_, ?_⟩
  · exact ⟨pt ++ " 총 ".toList,
      "개의 할 일 중 ".toList ++ natChars (todos.filter fun t => t.completed).length ++
        "개 완료 (".toList ++
        completionRateChars (todos.filter fun t => t.completed).length todos.length ++
        "%)".toList,
      by simp [fallbackAnalysis, List.append_assoc]⟩
  · exact ⟨pt ++ " 총 ".toList ++ natChars todos.length ++ "개의 할 일 중 ".toList,
      "개 완료 (".toList ++
        completionRateChars (todos.filter fun t => t.completed).length todos.length ++
        "%)".toList,
      by simp [fallbackAnalysis, List.append_assoc]⟩
  · exact ⟨pt ++ " 총 ".toList ++ natChars todos.length ++ "개의 할 일 중 ".toList ++
        natChars (todos.filter fun t => t.completed).length ++ "개 완료 (".toList,
      "%)".toList,
      by simp [fallbackAnalysis, List.append_assoc]⟩
  · simp [fallbackAnalysis]
  · simp [fallbackAnalysis]

/-- C4: when the owner has no tasks at all, or no task falls inside the
resolved period window, the analyze-tasks operation short-circuits to a
canned result (empty urgentTasks, non-empty static insights and
recommendations) and never reaches the model-call stage. -/
theorem c4_zero_tasks_short_circuit (p : AnalysisPeriod) (todayDay : Int)
    (todos : List TodoRec)
    (h : ∀ t ∈ todos, dueInRange (getDateRange p todayDay) t = false) :
    analyzeTodosStep p todayDay todos
        = .canned (if todos.isEmpty then noTodosResult else noPeriodTodosResult p)
    ∧ (∀ f, analyzeTodosStep p todayDay todos ≠ .modelCall f)
    ∧ noTodosResult.urgentTasks = []
    ∧ (noPeriodTodosResult p).urgentTasks = []
    ∧ noTodosResult.insights ≠ [] ∧ noTodosResult.recommendations ≠ []
    ∧ (noPeriodTodosResult p).insights ≠ []
    ∧ (noPeriodTodosResult p).recommendations ≠ [] := by
  have hfilter : todos.filter (dueInRange (getDateRange p todayDay)) = [] := by
    rw [List.filter_eq_nil_iff]
    intro a ha
    simp [h a ha]
  have hmain : analyzeTodosStep p todayDay todos
      = .canned (if todos.isEmpty then noTodosResult else noPeriodTodosResult p) := by
    cases htodos : todos.isEmpty
    · simp [analyzeTodosStep, htodos, hfilter]
    · simp [analyzeTodosStep, htodos]
  refine ⟨hmain, fun f hEq => ?_, rfl, ?_, ?_, ?_, ?_, ?_⟩
  · rw [hmain] at hEq
    exact AnalyzeOutcome.noConfusion hEq
  · cases p <;> rfl
  · simp [noTodosResult]
  · simp [noTodosResult]
  · cases p <;> simp [noPeriodTodosResult]
  · cases p <;> simp [noPeriodTodosResult]

/-- Witness for C4: an owner with one task that has no due date gets the
canned "no tasks in the period" result for the today period. -/
theorem c4_zero_tasks_short_circuit_witness :
    analyzeTodosStep AnalysisPeriod.today 0 [⟨['x'], Priority.high, false, none⟩]
      = .canned (noPeriodTodosResult AnalysisPeriod.today) := by
  have h := c4_zero_tasks_short_circuit AnalysisPeriod.today 0
    [⟨['x'], Priority.high, false, none⟩] (by decide)
  simpa using h.1

/-- Counterexample to C7 as stated: the punctuation-only input `"!"` is a
fixed point of normalization and contains no meaningful character, yet
validation fails with the too-short reason, not the no-meaningful-text
reason. -/
theorem c7_short_punctuation_counterexample :
    preprocessInput ['!'] = ['!']
    ∧ (∀ c ∈ (['!'] : List Char), isMeaningfulChar c = false)
    ∧ validateInput ['!'] = .err .tooShort
    ∧ ValidationError.tooShort ≠ ValidationError.noMeaningfulText := by decide

/-- C7 (amended): for every normalized input within the length bounds
(2–500), validation fails with the no-meaningful-text reason exactly when
no character falls in the Hangul, Latin, digit, CJK-ideograph or kana
ranges, and passes when at least one such character is present. -/
theorem c7_meaningful_text_rule (input : List Char)
    (hmin : 2 ≤ input.length) (hmax : input.length ≤ 500) :
    ((∀ c ∈ input, isMeaningfulChar c = false) →
        validateInput input = .err .noMeaningfulText)
    ∧ ((∃ c ∈ input, isMeaningfulChar c = true) → validateInput input = .ok) := by
  constructor
  · intro h
    have hany : ¬ (input.any isMeaningfulChar = true) := by
      simp only [List.any_eq_true, not_exists]
      intro c hc
      exact absurd hc.2 (by simp [h c hc.1])
    simp only [validateInput, INPUT_MIN_LENGTH, INPUT_MAX_LENGTH]
    rw [if_neg (show ¬ input.length = 0 by omega),
      if_neg (show ¬ input.length < 2 by omega),
      if_neg (show ¬ input.length > 500 by omega),
      if_neg hany]
  · rintro ⟨c, hc, hm⟩
    have hany : input.any isMeaningfulChar = true := List.any_eq_true.mpr ⟨c, hc, hm⟩
    simp only [validateInput, INPUT_MIN_LENGTH, INPUT_MAX_LENGTH]
    rw [if_neg (show ¬ input.length = 0 by omega),
      if_neg (show ¬ input.length < 2 by omega),
      if_neg (show ¬ input.length > 500 by omega),
      if_pos hany]

/-- Witness for C7: the punctuation pair `"!?"` fails with the
no-meaningful-text reason and the letter pair `"ab"` passes. -/
theorem c7_meaningful_text_rule_witness :
    validateInput ['!', '?'] = .err .noMeaningfulText
    ∧ validateInput ['a', 'b'] = .ok :=
  ⟨(c7_meaningful_text_rule ['!', '?'] (by decide) (by decide)).1 (by decide),
    (c7_meaningful_text_rule ['a', 'b'] (by decide) (by decide)).2 (by decide)⟩

/-! Helper lemmas about run collapsing and trimming, used for the
normalization idempotence and padding-invariance results. -/

theorem collapseRuns_cons_neg {p : Char → Bool} {r c : Char} (t : List Char)
    (h : p c = false) : collapseRuns p r (c :: t) = c :: collapseRuns p r t := by
  cases t with
  | nil => simp [collapseRuns, h]
  | cons c2 rest => simp [collapseRuns, h]

theorem mem_collapseRuns {p : Char → Bool} {r : Char} : ∀ {l : List Char} {a : Char},
    a ∈ collapseRuns p r l → a = r ∨ (a ∈ l ∧ p a = false) := by
  intro l
  induction l with
  | nil => intro a ha; simp [collapseRuns] at ha
  | cons c t ih =>
    intro a ha
    cases t with
    | nil =>
      by_cases hc : p c = true
      · simp [collapseRuns, hc] at ha
        exact Or.inl ha
      · have hcf : p c = false := by simpa using hc
        simp [collapseRuns, hcf] at ha
        exact Or.inr ⟨by simp [ha], by rw [ha]; exact hcf⟩
    | cons c2 rest =>
      by_cases hc : p c = true
      · by_cases hc2 : p c2 = true
        · rw [show collapseRuns p r (c :: c2 :: rest) = collapseRuns p r (c2 :: rest) from by
            simp [collapseRuns, hc, hc2]] at ha
          rcases ih ha with h1 | ⟨h2, h3⟩
          · exact Or.inl h1
          · exact Or.inr ⟨List.mem_cons_of_mem c h2, h3⟩
        · rw [show collapseRuns p r (c :: c2 :: rest)
              = r :: collapseRuns p r (c2 :: rest) from by simp [collapseRuns, hc, hc2]] at ha
          rcases List.mem_cons.mp ha with rfl | hmem
          · exact Or.inl rfl
          · rcases ih hmem with h1 | ⟨h2, h3⟩
            · exact Or.inl h1
            · exact Or.inr ⟨List.mem_cons_of_mem c h2, h3⟩
      · have hcf : p c = false := by simpa using hc
        rw [collapseRuns_cons_neg (c2 :: rest) hcf] at ha
        rcases List.mem_cons.mp ha with rfl | hmem
        · exact Or.inr ⟨List.mem_cons_self a (c2 :: rest), hcf⟩
        · rcases ih hmem with h1 | ⟨h2, h3⟩
          · exact Or.inl h1
          · exact Or.inr ⟨List.mem_cons_of_mem c h2, h3⟩

theorem collapseRuns_eq_self {p : Char → Bool} {r : Char} {l : List Char}
    (h : ∀ c ∈ l, p c = false) : collapseRuns p r l = l := by
  induction l with
  | nil => rfl
  | cons c t ih =>
    rw [collapseRuns_cons_neg t (h c (by simp))]
    rw [ih (fun d hd => h d (by simp [hd]))]

theorem collapseRuns_idem {p : Char → Bool} {r : Char} (hr : p r = true) :
    ∀ l : List Char, collapseRuns p r (collapseRuns p r l) = collapseRuns p r l := by
  intro l
  induction l with
  | nil => rfl
  | cons c t ih =>
    cases t with
    | nil =>
      by_cases hc : p c = true
      · simp [collapseRuns, hc, hr]
      · simp [collapseRuns, hc]
    | cons c2 rest =>
      by_cases hc : p c = true
      · by_cases hc2 : p c2 = true
        · rw [show collapseRuns p r (c :: c2 :: rest) = collapseRuns p r (c2 :: rest) from by
            simp [collapseRuns, hc, hc2]]
          exact ih
        · have hc2f : p c2 = false := by simpa using hc2
          have h1 : collapseRuns p r (c :: c2 :: rest)
              = r :: collapseRuns p r (c2 :: rest) := by
            simp [collapseRuns, hc, hc2]
          have h2 : collapseRuns p r (c2 :: rest) = c2 :: collapseRuns p r rest :=
            collapseRuns_cons_neg rest hc2f
          rw [h1, h2]
          rw [show collapseRuns p r (r :: c2 :: collapseRuns p r rest)
              = r :: collapseRuns p r (c2 :: collapseRuns p r rest) from by
            simp [collapseRuns, hr, hc2]]
          rw [← h2, ih, h2]
      · have hcf : p c = false := by simpa using hc
        rw [collapseRuns_cons_neg (c2 :: rest) hcf,
          collapseRuns_cons_neg (collapseRuns p r (c2 :: rest)) hcf, ih]

theorem isNl_eq_false_of_isWs {a : Char} (h : isWs a = false) : isNl a = false := by
  cases hn : isNl a
  · rfl
  · have ha : a = '\n' := by simpa [isNl] using hn
    rw [ha] at h
    exact absurd h (by decide)

theorem collapseNl_collapseWs (l : List Char) :
    collapseRuns isNl '\n' (collapseRuns isWs ' ' l) = collapseRuns isWs ' ' l := by
  apply collapseRuns_eq_self
  intro c hc
  rcases mem_collapseRuns hc with rfl | ⟨_, hf⟩
  · decide
  · exact isNl_eq_false_of_isWs hf

theorem getLast?_collapseRuns {p : Char → Bool} {r : Char} : ∀ {l : List Char} {c : Char},
    l.getLast? = some c → p c = false → (collapseRuns p r l).getLast? = some c := by
  intro l
  induction l with
  | nil => intro c hl _; simp at hl
  | cons a t ih =>
    intro c hl hc
    cases t with
    | nil =>
      have ha : a = c := by simpa using hl
      subst ha
      simp [collapseRuns, hc]
    | cons c2 rest =>
      have hl2 : (c2 :: rest).getLast? = some c := by
        simpa [List.getLast?_cons_cons] using hl
      by_cases hpa : p a = true
      · by_cases hc2 : p c2 = true
        · rw [show collapseRuns p r (a :: c2 :: rest) = collapseRuns p r (c2 :: rest) from by
            simp [collapseRuns, hpa, hc2]]
          exact ih hl2 hc
        · rw [show collapseRuns p r (a :: c2 :: rest)
              = r :: collapseRuns p r (c2 :: rest) from by simp [collapseRuns, hpa, hc2]]
          obtain ⟨ys, hys⟩ := List.getLast?_eq_some_iff.mp (ih hl2 hc)
          rw [hys, show r :: (ys ++ [c]) = (r :: ys) ++ [c] from rfl]
          exact List.getLast?_concat _
      · have hpaf : p a = false := by simpa using hpa
        rw [collapseRuns_cons_neg (c2 :: rest) hpaf]
        obtain ⟨ys, hys⟩ := List.getLast?_eq_some_iff.mp (ih hl2 hc)
        rw [hys, show a :: (ys ++ [c]) = (a :: ys) ++ [c] from rfl]
        exact List.getLast?_concat _

theorem dropWhile_head_not {p : Char → Bool} : ∀ {l : List Char} {c : Char} {t : List Char},
    l.dropWhile p = c :: t → p c = false := by
  intro l
  induction l with
  | nil => intro c t h; simp at h
  | cons a t' ih =>
    intro c t h
    by_cases ha : p a = true
    · rw [List.dropWhile_cons_of_pos ha] at h
      exact ih h
    · rw [List.dropWhile_cons_of_neg ha] at h
      injection h with h1 _
      rw [← h1]
      simpa using ha

theorem trimLeft_eq_self_of_head? {l : List Char}
    (h : ∀ c, l.head? = some c → isWs c = false) : trimLeft l = l := by
  cases l with
  | nil => rfl
  | cons a t => exact List.dropWhile_cons_of_neg (by simp [h a rfl])

theorem trimRight_eq_self_of_getLast? {l : List Char}
    (h : ∀ c, l.getLast? = some c → isWs c = false) : trimRight l = l := by
  unfold trimRight
  cases hrev : l.reverse with
  | nil =>
    have hnil : l = [] := by simpa using congrArg List.reverse hrev.symm
    simp [hnil]
  | cons a t =>
    have ha : l.getLast? = some a := by
      rw [List.getLast?_eq_head?_reverse, hrev]
      rfl
    rw [List.dropWhile_cons_of_neg (by simp [h a ha]), ← hrev, List.reverse_reverse]

theorem trimRight_isPrefix (z : List Char) : trimRight z <+: z := by
  have hx : (z.reverse.dropWhile isWs).reverse <+: z.reverse.reverse :=
    List.reverse_prefix.mpr (List.dropWhile_suffix isWs)
  simpa [trimRight] using hx

theorem jsTrim_head_not_ws {l : List Char} {c : Char}
    (h : (jsTrim l).head? = some c) : isWs c = false := by
  obtain ⟨t, ht⟩ : ∃ t, jsTrim l = c :: t := by
    cases hj : jsTrim l with
    | nil => rw [hj] at h; simp at h
    | cons a t =>
      rw [hj] at h
      simp at h
      exact ⟨t, by rw [h]⟩
  obtain ⟨rest, hz⟩ := trimRight_isPrefix (trimLeft l)
  rw [show jsTrim l = trimRight (trimLeft l) from rfl] at ht
  rw [ht] at hz
  exact dropWhile_head_not (show l.dropWhile isWs = c :: (t ++ rest) from by
    rw [← List.cons_append, hz]
    rfl)

theorem jsTrim_getLast_not_ws {l : List Char} {c : Char}
    (h : (jsTrim l).getLast? = some c) : isWs c = false := by
  rw [show jsTrim l = (((trimLeft l).reverse.dropWhile isWs).reverse : List Char) from rfl,
    List.getLast?_reverse] at h
  cases hw : (trimLeft l).reverse.dropWhile isWs with
  | nil => rw [hw] at h; simp at h
  | cons a t =>
    rw [hw] at h
    simp at h
    rw [h] at hw
    exact dropWhile_head_not hw

theorem jsTrim_collapseWs_fixed (l : List Char) :
    jsTrim (collapseRuns isWs ' ' (jsTrim l)) = collapseRuns isWs ' ' (jsTrim l) := by
  have h1 : trimLeft (collapseRuns isWs ' ' (jsTrim l)) = collapseRuns isWs ' ' (jsTrim l) := by
    apply trimLeft_eq_self_of_head?
    intro c hc
    cases hz : jsTrim l with
    | nil => rw [hz] at hc; simp [collapseRuns] at hc
    | cons a t =>
      rw [hz] at hc
      have haf : isWs a = false := jsTrim_head_not_ws (l := l) (by rw [hz]; rfl)
      rw [collapseRuns_cons_neg t haf] at hc
      simp at hc
      rw [← hc]
      exact haf
  have h2 : trimRight (collapseRuns isWs ' ' (jsTrim l)) = collapseRuns isWs ' ' (jsTrim l) := by
    apply trimRight_eq_self_of_getLast?
    intro c hc
    cases hz : (jsTrim l).getLast? with
    | none =>
      have hnil : jsTrim l = [] := List.getLast?_eq_none_iff.mp hz
      rw [hnil] at hc
      simp [collapseRuns] at hc
    | some d =>
      have hd : isWs d = false := jsTrim_getLast_not_ws hz
      have hlast := getLast?_collapseRuns (r := ' ') hz hd
      rw [hlast] at hc
      injection hc with hdc
      rw [← hdc]
      exact hd
  show trimRight (trimLeft _) = _
  rw [h1, h2]

/-- C8: input normalization is idempotent — trimming, collapsing
whitespace runs to one space and collapsing line-feed runs to one line
feed, applied twice, gives the same result as applying it once. -/
theorem c8_normalize_idempotent (s : List Char) :
    preprocessInput (preprocessInput s) = preprocessInput s := by
  have hps : preprocessInput s = collapseRuns isWs ' ' (jsTrim s) := by
    unfold preprocessInput
    rw [collapseNl_collapseWs]
  rw [hps]
  unfold preprocessInput
  rw [jsTrim_collapseWs_fixed s]
  rw [collapseRuns_idem (by decide) (jsTrim s)]
  rw [collapseNl_collapseWs]

theorem dropWhile_eq_nil_of_forall {p : Char → Bool} : ∀ {l : List Char},
    (∀ c ∈ l, p c = true) → l.dropWhile p = [] := by
  intro l
  induction l with
  | nil => intro _; rfl
  | cons a t ih =>
    intro h
    rw [List.dropWhile_cons_of_pos (h a (by simp))]
    exact ih (fun d hd => h d (by simp [hd]))

theorem trimLeft_ws_append (pre x : List Char) (h : ∀ c ∈ pre, isWs c = true) :
    trimLeft (pre ++ x) = trimLeft x :=
  List.dropWhile_append_of_pos h

theorem trimRight_append_ws (x suf : List Char) (h : ∀ c ∈ suf, isWs c = true) :
    trimRight (x ++ suf) = trimRight x := by
  unfold trimRight
  rw [List.reverse_append,
    List.dropWhile_append_of_pos (fun c hc => h c (List.mem_reverse.mp hc))]

theorem jsTrim_ws_pad (pre x suf : List Char) (hpre : ∀ c ∈ pre, isWs c = true)
    (hsuf : ∀ c ∈ suf, isWs c = true) : jsTrim (pre ++ x ++ suf) = jsTrim x := by
  unfold jsTrim
  rw [List.append_assoc, trimLeft_ws_append pre (x ++ suf) hpre]
  unfold trimLeft
  rw [List.dropWhile_append]
  by_cases hx : (x.dropWhile isWs).isEmpty
  · rw [if_pos hx]
    rw [dropWhile_eq_nil_of_forall hsuf]
    rw [show x.dropWhile isWs = [] from by simpa using hx]
  · rw [if_neg hx]
    exact trimRight_append_ws (x.dropWhile isWs) suf hsuf

/-- Counterexample to C10 as stated: the two-space raw input has raw
length at least 2 and a normalized form shorter than 2 characters, but it
is rejected with the empty-input reason, not the too-short reason. -/
theorem c10_whitespace_only_counterexample :
    ([' ', ' '] : List Char).length = 2
    ∧ (preprocessInput [' ', ' ']).length < 2
    ∧ checkNormalizeInput [' ', ' '] = .err .emptyInput
    ∧ ValidationResult.err .emptyInput ≠ ValidationResult.err .tooShort := by decide

/-- C10 (amended): the normalize-task operation validates the normalized
input, not the raw request string: a raw input whose normalized form has
length 1 is rejected as too short (length 0 is rejected as empty), a raw
input whose normalized form is within the 500-character limit is never
rejected as too long, and surrounding whitespace padding never changes
the validation outcome. -/
theorem c10_validation_on_normalized (raw : List Char) :
    ((preprocessInput raw).length = 0 → checkNormalizeInput raw = .err .emptyInput)
    ∧ ((preprocessInput raw).length = 1 → checkNormalizeInput raw = .err .tooShort)
    ∧ ((preprocessInput raw).length ≤ 500 → checkNormalizeInput raw ≠ .err .tooLong)
    ∧ (∀ pre suf, (∀ c ∈ pre, isWs c = true) → (∀ c ∈ suf, isWs c = true) →
        checkNormalizeInput (pre ++ raw ++ suf) = checkNormalizeInput raw) := by
  refine ⟨fun h => ?_, fun h => ?_, fun h => ?_, fun pre suf hpre hsuf => ?_⟩
  · simp only [checkNormalizeInput, validateInput]
    rw [if_pos h]
  · simp only [checkNormalizeInput, validateInput, INPUT_MIN_LENGTH]
    rw [if_neg (show ¬ (preprocessInput raw).length = 0 by omega),
      if_pos (show (preprocessInput raw).length < 2 by omega)]
  · simp only [checkNormalizeInput, validateInput, INPUT_MIN_LENGTH, INPUT_MAX_LENGTH]
    split_ifs with h1 h2 h3 h4
    · decide
    · decide
    · exact absurd h3 (by omega)
    · decide
    · decide
  · simp only [checkNormalizeInput, preprocessInput]
    rw [jsTrim_ws_pad pre raw suf hpre hsuf]

/-- Witness for C10: the raw input `" a "` (length 3) is rejected as too
short, and padding `"ab"` with spaces leaves the outcome unchanged. -/
theorem c10_validation_on_normalized_witness :
    checkNormalizeInput [' ', 'a', ' '] = .err .tooShort
    ∧ checkNormalizeInput ([' '] ++ ['a', 'b'] ++ [' ']) = checkNormalizeInput ['a', 'b'] :=
  ⟨(c10_validation_on_normalized [' ', 'a', ' ']).2.1 (by decide),
    (c10_validation_on_normalized ['a', 'b']).2.2.2 [' '] [' '] (by decide) (by decide)⟩

end AiTodo
